import Mathlib

/-!
Verification development for the RainEagle client library
(`src/RainEagle/EagleClass.py`), a Python client for the Rainforest
Automation EAGLE home-energy gateway.

The Python source is shallowly embedded below.  Python dicts whose values
are strings, nested dicts or lists are modelled by association lists over
an inductive value type; Python integers are `Int`/`Nat`, and the
arithmetic used by `set_price` is modelled over `Rat`.  Fallible Python
code (code that can raise) is modelled with `Except`.  All recursive
functions are structurally recursive, so every definition evaluates
inside the kernel.
-/

set_option autoImplicit false

namespace RainEagle

/-- Python exception classes raised by the embedded code paths:
`ValueError` (also covers `json.JSONDecodeError`), `TypeError`, and
`AttributeError`. -/
inductive PyErr : Type where
  | valueError : PyErr
  | typeError : PyErr
  | attributeError : PyErr
deriving DecidableEq

/-- Value stored in the dict produced by `_et2d`: a Python string or
`None` (`strv`), a nested dict (`dict`), or a list of values (`list`).
Lists arise for repeated sibling tags. -/
inductive DValue : Type where
  | strv : Option String → DValue
  | dict : List (String × DValue) → DValue
  | list : List DValue → DValue

/-- The dict built by `_et2d`: an insertion-ordered mapping from string
keys to `DValue`s, modelled as an association list with unique keys. -/
def Dict : Type := List (String × DValue)

/-- Python `key in d` / `d[key]` for the dict model: the value bound to
`key`, if any. -/
def dictLookup : Dict → String → Option DValue
  | [], _ => none
  | (k, v) :: t, key => if k = key then some v else dictLookup t key

/-- Python `d[key] = val` for the dict model: replaces the binding in
place if the key is present, otherwise appends a new binding. -/
def dictInsert : Dict → String → DValue → Dict
  | [], key, val => [(key, val)]
  | (k, v) :: t, key, val =>
      if k = key then (k, val) :: t else (k, v) :: dictInsert t key val

mutual

/-- An XML element as produced by `xml.etree.ElementTree`: a tag, an
ordered attribute list, an ordered child list and optional text content
(`None` text is `none`).  The children are a bespoke list type `EList`
so that all recursion over the tree is structural. -/
inductive Element : Type where
  | mk : String → List (String × String) → EList → Option String → Element

/-- A list of child elements (`list(et)`). -/
inductive EList : Type where
  | nil : EList
  | cons : Element → EList → EList

end

/-- Tag name of an element (`et.tag`). -/
def Element.tag : Element → String
  | .mk t _ _ _ => t

/-- Attribute list of an element (`et.attrib` / `et.items()`). -/
def Element.attrib : Element → List (String × String)
  | .mk _ a _ _ => a

/-- Child list of an element (`list(et)`). -/
def Element.children : Element → EList
  | .mk _ _ c _ => c

/-- Text content of an element (`et.text`). -/
def Element.text : Element → Option String
  | .mk _ _ _ tx => tx

/-- Conversion of `EList` to an ordinary list, used to state properties
of the child list. -/
def EList.toList : EList → List Element
  | .nil => []
  | .cons c cs => c :: cs.toList

/-- The children of `cs` whose tag is `t`, in document order. -/
def EList.filterTag : EList → String → List Element
  | .nil, _ => []
  | .cons c cs, t => if c.tag = t then c :: cs.filterTag t else cs.filterTag t

/-- First phase of `_et2d`: `if et.attrib: for k, v in list(et.items()):
d[et.tag + "-" + k] = v` starting from the fresh dict `d = dict()`.
Folding over an empty attribute list is a no-op, which coincides with the
skipped `if`. -/
def initAttrib (tg : String) (attrib : List (String × String)) : Dict :=
  attrib.foldl (fun d kv => dictInsert d (tg ++ "-" ++ kv.1) (.strv (some kv.2))) []

/-- The duplicate-tag wrap-up inside the `_et2d` child loop:
`if child.tag in d: if type(d[child.tag]) != list: d[child.tag] =
[d[child.tag]]`. -/
def wrapDup (d : Dict) (tg : String) : Dict :=
  match dictLookup d tg with
  | some (.list _) => d
  | some old => dictInsert d tg (.list [old])
  | none => d

/-- The append-or-insert tail of the `_et2d` child loop, acting on the
already computed child value `v`: `if child.tag in d:
d[child.tag].append(v) else: d[child.tag] = v`.  After `wrapDup` the
looked-up value is always a list; the middle branch mirrors what the
mutation `d[child.tag].append` would produce were a bare value present
(the error-monadic `appendOrInsertE` below shows this branch is dead). -/
def appendOrInsert (d : Dict) (tg : String) (v : DValue) : Dict :=
  match dictLookup d tg with
  | some (.list l) => dictInsert d tg (.list (l ++ [v]))
  | some old => dictInsert d tg (.list [old, v])
  | none => dictInsert d tg v

/-- One iteration of the `_et2d` child loop for a child with tag `tg`
whose converted value is `v`. -/
def step (d : Dict) (tg : String) (v : DValue) : Dict :=
  appendOrInsert (wrapDup d tg) tg v

/-- The `_et2d` child loop: for each child, compute its value (recursive
dict when `list(child) or child.attrib` holds, text content otherwise)
and fold it into the dict via `step`.  The recursive call of `_et2d` on a
non-leaf child is inlined as `procChildren (initAttrib ...) ...` to keep
the recursion structural; `et2d_cons` below restates it via `convChild`. -/
def procChildren : Dict → EList → Dict
  | d, .nil => d
  | d, .cons (.mk tg a ch tx) cs =>
      procChildren
        (step d tg
          (match ch, a with
           | .nil, [] => .strv tx
           | _, _ => .dict (procChildren (initAttrib tg a) ch)))
        cs

/-- Embedding of `_et2d` restricted to genuine `Element` inputs. -/
def et2d : Element → Dict
  | .mk tg a cs _ => procChildren (initAttrib tg a) cs

/-- Conversion of a single child in the `_et2d` loop: recursive dict for
a child with children or attributes (`if list(child) or child.attrib`),
text content (`child.text`) otherwise. -/
def convChild (c : Element) : DValue :=
  match c.children, c.attrib with
  | .nil, [] => .strv c.text
  | _, _ => .dict (et2d c)

/-- Argument of `_et2d` as seen from Python: any value, of which only
`Element`s are processed (`if not isinstance(et, ET.Element): return d`). -/
inductive EtInput : Type where
  | elem : Element → EtInput
  | other : EtInput

/-- Embedding of `_et2d` on arbitrary inputs: non-`Element` arguments
yield the empty dict. -/
def et2dAny : EtInput → Dict
  | .elem e => et2d e
  | .other => []

theorem procChildren_cons (d : Dict) (c : Element) (cs : EList) :
    procChildren d (.cons c cs) = procChildren (step d c.tag (convChild c)) cs := by
  obtain ⟨tg, a, ch, tx⟩ := c
  cases ch <;> cases a <;> rfl

theorem dictLookup_insert_self (d : Dict) (k : String) (v : DValue) :
    dictLookup (dictInsert d k v) k = some v := by
  induction d with
  | nil => simp [dictInsert, dictLookup]
  | cons hd t ih =>
      obtain ⟨k0, v0⟩ := hd
      by_cases h : k0 = k
      · simp [dictInsert, dictLookup, h]
      · simp [dictInsert, dictLookup, h, ih]

theorem dictLookup_insert_ne (d : Dict) (k t : String) (v : DValue)
    (h : t ≠ k) :
    dictLookup (dictInsert d k v) t = dictLookup d t := by
  induction d with
  | nil => simp [dictInsert, dictLookup, Ne.symm h]
  | cons hd tl ih =>
      obtain ⟨k0, v0⟩ := hd
      by_cases h0 : k0 = k
      · subst h0
        simp [dictInsert, dictLookup, Ne.symm h]
      · simp [dictInsert, dictLookup, h0, ih]

/-- Effect of one `step` on the binding of the stepped tag: a fresh tag
is bound to the value, a bare old value is wrapped into a two-element
list, and a list is extended. -/
def mergeOne : Option DValue → DValue → DValue
  | none, v => v
  | some (.list l), v => .list (l ++ [v])
  | some old, v => .list [old, v]

/-- Iterated `mergeOne`: the evolution of a tag's binding across the
children sharing that tag. -/
def mergeMany (cur : Option DValue) (vs : List DValue) : Option DValue :=
  vs.foldl (fun c v => some (mergeOne c v)) cur

theorem step_lookup_self (d : Dict) (tg : String) (v : DValue) :
    dictLookup (step d tg v) tg = some (mergeOne (dictLookup d tg) v) := by
  unfold step wrapDup appendOrInsert mergeOne
  match h : dictLookup d tg with
  | none => simp [h, dictLookup_insert_self]
  | some (.strv s) => simp [h, dictLookup_insert_self]
  | some (.dict dd) => simp [h, dictLookup_insert_self]
  | some (.list l) => simp [h, dictLookup_insert_self]

theorem step_lookup_ne (d : Dict) (tg t : String) (v : DValue)
    (h : t ≠ tg) :
    dictLookup (step d tg v) t = dictLookup d t := by
  unfold step wrapDup appendOrInsert
  match h0 : dictLookup d tg with
  | none => simp [h0, dictLookup_insert_ne _ _ _ _ h]
  | some (.strv s) => simp [h0, dictLookup_insert_self, dictLookup_insert_ne _ _ _ _ h]
  | some (.dict dd) => simp [h0, dictLookup_insert_self, dictLookup_insert_ne _ _ _ _ h]
  | some (.list l) => simp [h0, dictLookup_insert_ne _ _ _ _ h]

theorem procChildren_lookup (t : String) :
    ∀ (cs : EList) (d : Dict),
      dictLookup (procChildren d cs) t
        = mergeMany (dictLookup d t) ((cs.filterTag t).map convChild)
  | .nil, d => rfl
  | .cons c cs, d => by
      rw [procChildren_cons]
      rw [procChildren_lookup t cs]
      by_cases h : c.tag = t
      · subst h
        rw [step_lookup_self]
        simp [EList.filterTag, mergeMany]
      · rw [step_lookup_ne _ _ _ _ (fun hh => h hh.symm)]
        simp [EList.filterTag, h]

theorem mergeMany_list (vs : List DValue) :
    ∀ (l : List DValue), mergeMany (some (.list l)) vs = some (.list (l ++ vs)) := by
  induction vs with
  | nil => intro l; simp [mergeMany]
  | cons v vs ih =>
      intro l
      have h1 : mergeMany (some (.list l)) (v :: vs)
          = mergeMany (some (.list (l ++ [v]))) vs := rfl
      rw [h1, ih]
      simp

theorem mergeOne_nonlist (old v : DValue) (h : ∀ l, old ≠ .list l) :
    mergeOne (some old) v = .list [old, v] := by
  cases old with
  | strv s => rfl
  | dict d => rfl
  | list l => exact absurd rfl (h l)

theorem convChild_ne_list (c : Element) (l : List DValue) :
    convChild c ≠ .list l := by
  unfold convChild
  obtain ⟨tg, a, ch, tx⟩ := c
  cases ch <;> cases a <;> simp [Element.children, Element.attrib]

theorem mergeMany_none_two (v1 v2 : DValue) (vs : List DValue)
    (h1 : ∀ l, v1 ≠ .list l) :
    mergeMany none (v1 :: v2 :: vs) = some (.list (v1 :: v2 :: vs)) := by
  have e1 : mergeMany none (v1 :: v2 :: vs)
      = mergeMany (some (mergeOne (some v1) v2)) vs := rfl
  rw [e1, mergeOne_nonlist v1 v2 h1, mergeMany_list]
  simp

theorem initAttrib_lookup_none (tg : String) (t : String)
    (attrib : List (String × String))
    (h : ∀ kv ∈ attrib, tg ++ "-" ++ kv.1 ≠ t) :
    dictLookup (initAttrib tg attrib) t = none := by
  unfold initAttrib
  have main : ∀ (l : List (String × String)) (d : Dict),
      (∀ kv ∈ l, tg ++ "-" ++ kv.1 ≠ t) →
      dictLookup d t = none →
      dictLookup
        (l.foldl (fun d kv => dictInsert d (tg ++ "-" ++ kv.1) (.strv (some kv.2))) d) t
        = none := by
    intro l
    induction l with
    | nil => intro d _ hd; exact hd
    | cons kv l ih =>
        intro d hl hd
        rw [List.foldl_cons]
        refine ih _ (fun x hx => hl x (List.mem_cons_of_mem kv hx)) ?_
        rw [dictLookup_insert_ne]
        · exact hd
        · exact fun hh => hl kv (List.mem_cons_self kv l) hh.symm
  exact main attrib [] h rfl

/-- Counterexample element for the repeated-sibling-tag claim: the
parent `<a b="x">` carries an attribute whose synthetic key `a-b`
collides with the tag of its two `<a-b>` children. -/
def c4parent : Element :=
  .mk "a" [("b", "x")]
    (.cons (.mk "a-b" [] .nil (some "1"))
      (.cons (.mk "a-b" [] .nil (some "2")) .nil)) none

/-- C4 (counterexample): the claim fails as stated.  `c4parent` has
exactly `n = 2` children sharing the tag `a-b`, yet `_et2d` binds `a-b`
to a sequence of length 3: the parent's flattened attribute value `"x"`
was already stored under the synthetic key `a-b`, so it gets wrapped into
the sequence ahead of the children's converted values. -/
theorem et2d_repeated_siblings_counterexample :
    dictLookup (et2d c4parent) "a-b"
        = some (.list [.strv (some "x"), .strv (some "1"), .strv (some "2")])
      ∧ ((c4parent.children.filterTag "a-b").map convChild).length = 2
      ∧ ([DValue.strv (some "x"), .strv (some "1"), .strv (some "2")]).length ≠ 2 :=
  ⟨rfl, rfl, by decide⟩

/-- C4 (amended): for every element with `n > 1` children sharing tag
`t`, provided `t` does not collide with one of the element's synthetic
attribute keys `tag-attributeName`, the normalized dict binds `t` to the
ordered sequence of the `n` children's converted values in document
order (the first occurrence having been converted in place into the head
of the sequence). -/
theorem et2d_repeated_siblings (e : Element) (t : String)
    (hattr : ∀ kv ∈ e.attrib, e.tag ++ "-" ++ kv.1 ≠ t)
    (hn : 1 < (e.children.filterTag t).length) :
    dictLookup (et2d e) t
      = some (.list ((e.children.filterTag t).map convChild)) := by
  obtain ⟨tg, a, cs, tx⟩ := e
  show dictLookup (procChildren (initAttrib tg a) cs) t = _
  rw [procChildren_lookup t cs]
  rw [initAttrib_lookup_none tg t a hattr]
  have hn2 : 1 < (cs.filterTag t).length := hn
  match h : cs.filterTag t with
  | [] => rw [h] at hn2; simp at hn2
  | [c] => rw [h] at hn2; simp at hn2
  | c1 :: c2 :: rest =>
      show mergeMany none (convChild c1 :: convChild c2 :: rest.map convChild) = _
      rw [mergeMany_none_two _ _ _ (convChild_ne_list c1)]
      simp

/-- Witness for the amended C4 at a parent with three leaf `<reading>`
children: the binding is the ordered three-element sequence of their text
values. -/
def c4readings : Element :=
  .mk "p" []
    (.cons (.mk "reading" [] .nil (some "1"))
      (.cons (.mk "reading" [] .nil (some "2"))
        (.cons (.mk "reading" [] .nil (some "3")) .nil))) none

theorem et2d_repeated_siblings_witness :
    1 < (c4readings.children.filterTag "reading").length
      ∧ dictLookup (et2d c4readings) "reading"
          = some (.list ((c4readings.children.filterTag "reading").map convChild)) :=
  ⟨by decide,
   et2d_repeated_siblings c4readings "reading"
     (by intro kv hkv; simp [c4readings, Element.attrib] at hkv)
     (by decide)⟩

/-- Error-monadic variant of `appendOrInsert`, faithful to where the
Python mutation could raise: `d[child.tag].append(...)` would raise an
`AttributeError` if the stored value were not a list. -/
def appendOrInsertE (d : Dict) (tg : String) (v : DValue) : Except PyErr Dict :=
  match dictLookup d tg with
  | some (.list l) => .ok (dictInsert d tg (.list (l ++ [v])))
  | some _ => .error .attributeError
  | none => .ok (dictInsert d tg v)

/-- Error-monadic variant of `step`. -/
def stepE (d : Dict) (tg : String) (v : DValue) : Except PyErr Dict :=
  appendOrInsertE (wrapDup d tg) tg v

/-- Error-monadic variant of the `_et2d` child loop. -/
def procChildrenE : Dict → EList → Except PyErr Dict
  | d, .nil => .ok d
  | d, .cons (.mk tg a ch tx) cs => do
      let v ← match ch, a with
              | .nil, ([] : List (String × String)) => Except.ok (DValue.strv tx)
              | _, _ => (procChildrenE (initAttrib tg a) ch).map DValue.dict
      let d2 ← stepE d tg v
      procChildrenE d2 cs

/-- Error-monadic embedding of `_et2d` on elements. -/
def et2dE : Element → Except PyErr Dict
  | .mk tg a cs _ => procChildrenE (initAttrib tg a) cs

/-- Error-monadic embedding of `_et2d` on arbitrary inputs. -/
def et2dEAny : EtInput → Except PyErr Dict
  | .elem e => et2dE e
  | .other => .ok []

theorem stepE_ok (d : Dict) (tg : String) (v : DValue) :
    stepE d tg v = .ok (step d tg v) := by
  unfold stepE step wrapDup appendOrInsertE appendOrInsert
  match h : dictLookup d tg with
  | none => simp [h]
  | some (.strv s) => simp [h, dictLookup_insert_self]
  | some (.dict dd) => simp [h, dictLookup_insert_self]
  | some (.list l) => simp [h]

theorem procChildrenE_ok :
    ∀ (cs : EList) (d : Dict), procChildrenE d cs = .ok (procChildren d cs)
  | .nil, _ => rfl
  | .cons (.mk tg a ch tx) cs, d => by
      have ih1 := procChildrenE_ok ch (initAttrib tg a)
      have ih2 := fun d2 => procChildrenE_ok cs d2
      cases ch with
      | nil =>
          cases a with
          | nil => simp [procChildrenE, procChildren, stepE_ok, ih2, Bind.bind, Except.bind]
          | cons kv arest =>
              simp [procChildrenE, procChildren, stepE_ok, ih1, ih2, Bind.bind,
                Except.bind, Except.map]
      | cons c0 ch0 =>
          simp [procChildrenE, procChildren, stepE_ok, ih1, ih2, Bind.bind,
            Except.bind, Except.map]

/-- C9: the tree normalizer is total and never raises.  The error-monadic
embedding (which records the one place the Python code could raise, the
`.append` on an already-present binding) always returns `ok`, a
non-`Element` input yields the empty dict, and every `Element` input
yields the dict computed by `et2d`. -/
theorem et2d_total_never_raises :
    (∀ x : EtInput, et2dEAny x = .ok (et2dAny x)) ∧ et2dAny .other = [] := by
  constructor
  · intro x
    cases x with
    | elem e =>
        obtain ⟨tg, a, cs, tx⟩ := e
        exact procChildrenE_ok cs (initAttrib tg a)
    | other => rfl
  · rfl

/-- The `<device id="7"/>` element of the attribute-flattening claim. -/
def c5device : Element := .mk "device" [("id", "7")] .nil none

/-- A root element whose only child is `<device id="7"/>`. -/
def c5root : Element := .mk "root" [] (.cons c5device .nil) none

/-- C5 (counterexample): normalizing the root does NOT put the key
`device-id` into the resulting mapping; the synthetic attribute key only
appears one level down, inside the sub-dict stored under `device`. -/
theorem et2d_attr_flatten_counterexample :
    dictLookup (et2d c5root) "device-id" = none := rfl

/-- C5 (amended): normalizing the root binds `device` to the sub-dict
obtained by normalizing the `<device id="7"/>` child, and that sub-dict
binds the synthetic key `device-id` to the attribute value `"7"`. -/
theorem et2d_attr_flatten :
    dictLookup (et2d c5root) "device" = some (.dict (et2d c5device))
      ∧ dictLookup (et2d c5device) "device-id" = some (.strv (some "7")) :=
  ⟨rfl, rfl⟩

/-- Lowercase hexadecimal digit character for a digit value below 16. -/
def hexChar (d : Nat) : Char :=
  Char.ofNat (if d < 10 then 48 + d else 87 + d)

/-- Big-endian hexadecimal digit characters of a natural number (empty
for zero, as with `Nat.digits`). -/
def hexDigitsBE (n : Nat) : List Char :=
  ((Nat.digits 16 n).reverse).map hexChar

/-- Hex digit characters of `n`, left-padded with `'0'` to at least `w`
characters.  This is the digit part of Python's `"\x7b:#0\x7bwidth\x7dx\x7d"`
format (and of `"\x7b:#x\x7d"` with `w = 1`). -/
def padList (n : Nat) (w : Nat) : List Char :=
  List.replicate (w - (hexDigitsBE n).length) '0' ++ hexDigitsBE n

/-- Python `format(i, "#0<width>x")`: `0x`-prefixed, zero-padded
lowercase hex of total field width `width` (sign included for negative
values, as Python does). -/
def pyHexFormat (i : Int) (width : Nat) : String :=
  if i < 0 then String.mk ('-' :: '0' :: 'x' :: padList i.natAbs (width - 3))
  else String.mk ('0' :: 'x' :: padList i.toNat (width - 2))

/-- Python `format(n, "#x")` for the non-negative values produced by
`set_price`. -/
def hexSimple (n : Nat) : String :=
  String.mk ('0' :: 'x' :: padList n 1)

/-- Numeric value of a hexadecimal digit character, if any. -/
def hexDigitVal (c : Char) : Option Nat :=
  if '0' ≤ c ∧ c ≤ '9' then some (c.toNat - 48)
  else if 'a' ≤ c ∧ c ≤ 'f' then some (c.toNat - 87)
  else if 'A' ≤ c ∧ c ≤ 'F' then some (c.toNat - 55)
  else none

/-- Value of a non-empty hexadecimal digit string. -/
def parseHexDigits (cs : List Char) : Option Nat :=
  match cs with
  | [] => none
  | _ => cs.foldlM (fun a c => (hexDigitVal c).map (fun d => 16 * a + d)) 0

/-- Model of Python `int(s, 16)` on plain hex literals: an optional
`0x`/`0X` prefix followed by at least one hex digit (surrounding
whitespace, signs and underscore separators are outside the modelled
fragment; the strings produced by `_tohex` never use them). -/
def parseHexNat (s : String) : Option Nat :=
  match s.data with
  | '0' :: 'x' :: rest => parseHexDigits rest
  | '0' :: 'X' :: rest => parseHexDigits rest
  | rest => parseHexDigits rest

/-- Embedding of `_twos_comp(val, bits)` for the non-negative values
obtained from hex parsing: `if val & (1 << (bits-1)) != 0: val = val -
(1 << bits)`. -/
def twosComp (val : Nat) (bits : Nat) : Int :=
  if val &&& (1 <<< (bits - 1)) != 0 then (val : Int) - ((1 <<< bits : Nat) : Int)
  else (val : Int)

/-- Numeric core of `_tohex` on an integer argument: widen the width by
two for the `0x` prefix, add `0x100000000` to negative values, format.
The out-of-signed-32-bit-range check in the source only emits a
`RuntimeWarning` and does not alter the returned string. -/
def tohexInt (n : Int) (width : Nat) : String :=
  pyHexFormat (if n < 0 then n + 4294967296 else n) (width + 2)

/-- Argument of `_tohex`: the callers hand it either a string or an
integer. -/
inductive HexInput : Type where
  | ofStr : String → HexInput
  | ofInt : Int → HexInput

/-- Model of Python `int(s)` on plain decimal literals (optional sign,
at least one digit). -/
def pyParseInt (s : String) : Option Int :=
  let p : Int × List Char :=
    match s.data with
    | '-' :: r => (-1, r)
    | '+' :: r => (1, r)
    | r => (1, r)
  if p.2 = [] ∨ p.2.any (fun c => ¬ c.isDigit) then none
  else some (p.1 * ((p.2.foldl (fun a c => 10 * a + (c.toNat - 48)) 0 : Nat) : Int))

/-- Embedding of `_tohex(n, width=8)`: `0x`-prefixed strings pass
through unchanged, everything else is converted with `int` and formatted
as two's-complement hex. -/
def tohex : HexInput → Nat → Except PyErr String
  | .ofStr s, width =>
      if s.startsWith "0x" then .ok s
      else
        match pyParseInt s with
        | some i => .ok (tohexInt i width)
        | none => .error .valueError
  | .ofInt i, width => .ok (tohexInt i width)

theorem hexDigitVal_hexChar (d : Nat) (h : d < 16) :
    hexDigitVal (hexChar d) = some d := by
  interval_cases d <;> decide

theorem foldlM_hexChar (l : List Nat) (h : ∀ d ∈ l, d < 16) :
    ∀ (a : Nat),
      (l.map hexChar).foldlM (fun a c => (hexDigitVal c).map (fun d => 16 * a + d)) a
        = some (l.foldl (fun a d => 16 * a + d) a) := by
  induction l with
  | nil => intro a; rfl
  | cons d t ih =>
      intro a
      have hd : d < 16 := h d (List.mem_cons_self d t)
      have ht : ∀ x ∈ t, x < 16 := fun x hx => h x (List.mem_cons_of_mem d hx)
      simp [List.foldlM, hexDigitVal_hexChar d hd, ih ht]

theorem foldl_hexval (l : List Nat) :
    ∀ (a : Nat),
      l.foldl (fun a d => 16 * a + d) a = a * 16 ^ l.length + Nat.ofDigits 16 l.reverse := by
  induction l with
  | nil => intro a; simp [Nat.ofDigits]
  | cons d t ih =>
      intro a
      rw [List.foldl_cons, ih]
      rw [List.reverse_cons, Nat.ofDigits_append, Nat.ofDigits_singleton]
      simp only [List.length_cons, List.length_reverse]
      ring

theorem parseHexDigits_pad (v w : Nat) (hw : 1 ≤ w) :
    parseHexDigits (padList v w) = some v := by
  have hchar0 : ('0' : Char) = hexChar 0 := by decide
  have hmap : padList v w
      = (List.replicate (w - (hexDigitsBE v).length) 0
          ++ (Nat.digits 16 v).reverse).map hexChar := by
    rw [List.map_append, List.map_replicate, ← hchar0]
    rfl
  have hlt : ∀ d ∈ List.replicate (w - (hexDigitsBE v).length) 0
      ++ (Nat.digits 16 v).reverse, d < 16 := by
    intro d hd
    rcases List.mem_append.mp hd with h1 | h1
    · have := List.eq_of_mem_replicate h1
      omega
    · exact Nat.digits_lt_base (by norm_num) (List.mem_reverse.mp h1)
  have hne : padList v w ≠ [] := by
    intro hcon
    have hlen := congrArg List.length hcon
    simp only [padList, List.length_append, List.length_replicate, List.length_nil] at hlen
    omega
  have hfold :
      (List.replicate (w - (hexDigitsBE v).length) 0
          ++ (Nat.digits 16 v).reverse).foldl (fun a d => 16 * a + d) 0 = v := by
    rw [List.foldl_append]
    have hz : (List.replicate (w - (hexDigitsBE v).length) 0).foldl
        (fun a d => 16 * a + d) 0 = 0 := by
      induction (w - (hexDigitsBE v).length) with
      | zero => rfl
      | succ k ihk => simpa [List.replicate_succ] using ihk
    rw [hz, foldl_hexval, List.reverse_reverse, Nat.ofDigits_digits]
    simp
  match hcs : padList v w with
  | [] => exact absurd hcs hne
  | c :: cs =>
      show (c :: cs).foldlM (fun a c => (hexDigitVal c).map (fun d => 16 * a + d)) 0 = some v
      rw [← hcs, hmap, foldlM_hexChar _ hlt, hfold]

theorem twosComp_32_low (v : Nat) (h : v < 2147483648) : twosComp v 32 = (v : Int) := by
  have h0 : v &&& 2147483648 = 0 := by
    rw [show (2147483648 : Nat) = 2 ^ 31 by norm_num, Nat.and_two_pow,
      Nat.testBit_eq_false_of_lt (by omega)]
    simp
  simp [twosComp, h0]

theorem twosComp_32_high (v : Nat) (h1 : 2147483648 ≤ v) (h2 : v < 4294967296) :
    twosComp v 32 = (v : Int) - 4294967296 := by
  have hbit : v.testBit 31 = true := by
    rw [Nat.testBit_to_div_mod]
    have hq : v / 2147483648 = 1 := by omega
    simp [hq]
  have h0 : v &&& 2147483648 ≠ 0 := by
    rw [show (2147483648 : Nat) = 2 ^ 31 by norm_num, Nat.and_two_pow, hbit]
    simp
  simp [twosComp, h0]

/-- C6: for every integer in the signed 32-bit range, `_tohex` emits the
hex of `n` itself for non-negative `n` and the hex of `n + 2^32` for
negative `n`, and parsing the emitted string back with `int(s, 16)` and
applying `_twos_comp` at 32 bits recovers `n`. -/
theorem tohex_twosComp_roundtrip (n : Int)
    (h1 : -2147483648 ≤ n) (h2 : n ≤ 2147483647) :
    tohex (.ofInt n) 8 = .ok (pyHexFormat (if n < 0 then n + 4294967296 else n) 10)
      ∧ (parseHexNat (tohexInt n 8)).map (fun v => twosComp v 32) = some n := by
  refine ⟨rfl, ?_⟩
  by_cases hn : n < 0
  · have hi0 : (0 : Int) ≤ n + 4294967296 := by omega
    have hfmt : tohexInt n 8
        = String.mk ('0' :: 'x' :: padList (n + 4294967296).toNat 8) := by
      unfold tohexInt pyHexFormat
      rw [if_pos hn, if_neg (not_lt.mpr hi0)]
    rw [hfmt]
    have hparse : parseHexNat (String.mk ('0' :: 'x' :: padList (n + 4294967296).toNat 8))
        = parseHexDigits (padList (n + 4294967296).toNat 8) := rfl
    rw [hparse, parseHexDigits_pad _ 8 (by norm_num)]
    have hrange1 : 2147483648 ≤ (n + 4294967296).toNat := by omega
    have hrange2 : (n + 4294967296).toNat < 4294967296 := by omega
    simp only [Option.map_some']
    rw [twosComp_32_high _ hrange1 hrange2]
    have : ((n + 4294967296).toNat : Int) = n + 4294967296 := Int.toNat_of_nonneg hi0
    rw [this]
    ring_nf
  · have hi0 : (0 : Int) ≤ n := by omega
    have hfmt : tohexInt n 8 = String.mk ('0' :: 'x' :: padList n.toNat 8) := by
      unfold tohexInt pyHexFormat
      rw [if_neg hn, if_neg (not_lt.mpr hi0)]
    rw [hfmt]
    have hparse : parseHexNat (String.mk ('0' :: 'x' :: padList n.toNat 8))
        = parseHexDigits (padList n.toNat 8) := rfl
    rw [hparse, parseHexDigits_pad _ 8 (by norm_num)]
    have hrange : n.toNat < 2147483648 := by omega
    simp only [Option.map_some']
    rw [twosComp_32_low _ hrange]
    rw [Int.toNat_of_nonneg hi0]

/-- Witness for C6 at `n = -42`: the hypotheses hold and the round trip
recovers `-42`. -/
theorem tohex_twosComp_roundtrip_witness :
    ((-2147483648 : Int) ≤ -42 ∧ (-42 : Int) ≤ 2147483647)
      ∧ (parseHexNat (tohexInt (-42) 8)).map (fun v => twosComp v 32) = some (-42) :=
  ⟨⟨by decide, by decide⟩,
   (tohex_twosComp_roundtrip (-42) (by decide) (by decide)).2⟩

/-- The opening-brace character, written via its code point. -/
def lbrace : Char := Char.ofNat 123

/-- The closing-brace character, written via its code point. -/
def rbrace : Char := Char.ofNat 125

/-- JSON values as produced by Python `json.loads`. -/
inductive JVal : Type where
  | null : JVal
  | bool : Bool → JVal
  | num : Rat → JVal
  | str : String → JVal
  | arr : List JVal → JVal
  | obj : List (String × JVal) → JVal

/-- Skip JSON whitespace (space, tab, newline, carriage return). -/
def jskipWs (cs : List Char) : List Char :=
  cs.dropWhile (fun c => c == ' ' || c == '\t' || c == '\n' || c == '\r')

/-- Parse the remainder of a JSON string literal (after the opening
quote), accumulating decoded characters.  Unicode escapes are decoded
with `Char.ofNat`; surrogate-pair recombination is outside the modelled
fragment. -/
def jstring : List Char → List Char → Option (String × List Char)
  | [], _ => none
  | c :: rest, acc =>
      if c == '"' then some (String.mk acc.reverse, rest)
      else if c == '\\' then
        match rest with
        | [] => none
        | e :: rest2 =>
            if e == '"' then jstring rest2 ('"' :: acc)
            else if e == '\\' then jstring rest2 ('\\' :: acc)
            else if e == '/' then jstring rest2 ('/' :: acc)
            else if e == 'b' then jstring rest2 (Char.ofNat 8 :: acc)
            else if e == 'f' then jstring rest2 (Char.ofNat 12 :: acc)
            else if e == 'n' then jstring rest2 ('\n' :: acc)
            else if e == 'r' then jstring rest2 ('\r' :: acc)
            else if e == 't' then jstring rest2 ('\t' :: acc)
            else if e == 'u' then
              match rest2 with
              | h1 :: h2 :: h3 :: h4 :: rest3 =>
                  match hexDigitVal h1, hexDigitVal h2, hexDigitVal h3, hexDigitVal h4 with
                  | some a, some b, some c3, some d3 =>
                      jstring rest3 (Char.ofNat (((a * 16 + b) * 16 + c3) * 16 + d3) :: acc)
                  | _, _, _, _ => none
              | _ => none
            else none
      else jstring rest (c :: acc)

/-- Decimal value of a digit-character list. -/
def digitsToNat (cs : List Char) : Nat :=
  cs.foldl (fun a c => 10 * a + (c.toNat - 48)) 0

/-- Parse an optional exponent part (`e`/`E`, optional sign, digits). -/
def jexp : List Char → Option (Int × List Char)
  | [] => some (0, [])
  | c :: r =>
      if c == 'e' || c == 'E' then
        let sp : Int × List Char :=
          match r with
          | '-' :: rr => (-1, rr)
          | '+' :: rr => (1, rr)
          | rr => (1, rr)
        let epart := sp.2.takeWhile Char.isDigit
        if epart.isEmpty then none
        else some (sp.1 * (digitsToNat epart : Int), sp.2.dropWhile Char.isDigit)
      else some (0, c :: r)

/-- Exact rational value of a decimal literal `sgn ip.fp e ev`, computed
with integer arithmetic and `mkRat` so that it evaluates inside the
kernel. -/
def sciRat (sgn : Int) (ip fp : List Char) (ev : Int) : Rat :=
  let mant : Int := sgn * ((digitsToNat ip * 10 ^ fp.length + digitsToNat fp : Nat) : Int)
  let e2 : Int := ev - fp.length
  if 0 ≤ e2 then mkRat (mant * (10 : Int) ^ e2.toNat) 1
  else mkRat mant ((10 : Nat) ^ (-e2).toNat)

/-- Parse a JSON number (sign, integer part with no leading zeros,
optional fraction and exponent). -/
def jnumber (cs : List Char) : Option (Rat × List Char) :=
  let sp : Int × List Char :=
    match cs with
    | '-' :: r => (-1, r)
    | r => (1, r)
  match sp.2 with
  | [] => none
  | c :: _ =>
      if c.isDigit then
        let ipart := sp.2.takeWhile Char.isDigit
        let rest1 := sp.2.dropWhile Char.isDigit
        if 1 < ipart.length && ipart.headD ' ' == '0' then none
        else
          match rest1 with
          | '.' :: r2 =>
              let fpart := r2.takeWhile Char.isDigit
              if fpart.isEmpty then none
              else
                match jexp (r2.dropWhile Char.isDigit) with
                | none => none
                | some (ev, rest3) => some (sciRat sp.1 ipart fpart ev, rest3)
          | r2 =>
              match jexp r2 with
              | none => none
              | some (ev, rest3) => some (sciRat sp.1 ipart [] ev, rest3)
      else none

mutual

/-- Fuel-indexed JSON value parser (model of the `json.loads` grammar).
The fuel only bounds nesting and item count; `jsonLoads` supplies more
than enough. -/
def jparse : Nat → List Char → Option (JVal × List Char)
  | 0, _ => none
  | fuel + 1, cs =>
      match jskipWs cs with
      | [] => none
      | c :: rest =>
          if c == '"' then (jstring rest []).map (fun p => (JVal.str p.1, p.2))
          else if c == lbrace then
            match jskipWs rest with
            | [] => none
            | c2 :: rest2 =>
                if c2 == rbrace then some (JVal.obj [], rest2)
                else jobjItems fuel (c2 :: rest2) []
          else if c == '[' then
            match jskipWs rest with
            | [] => none
            | c2 :: rest2 =>
                if c2 == ']' then some (JVal.arr [], rest2)
                else jarrItems fuel (c2 :: rest2) []
          else
            match c :: rest with
            | 't' :: 'r' :: 'u' :: 'e' :: r => some (JVal.bool true, r)
            | 'f' :: 'a' :: 'l' :: 's' :: 'e' :: r => some (JVal.bool false, r)
            | 'n' :: 'u' :: 'l' :: 'l' :: r => some (JVal.null, r)
            | cs2 => (jnumber cs2).map (fun p => (JVal.num p.1, p.2))

/-- Parse the comma-separated items of a non-empty JSON array. -/
def jarrItems : Nat → List Char → List JVal → Option (JVal × List Char)
  | 0, _, _ => none
  | fuel + 1, cs, acc =>
      match jparse fuel cs with
      | none => none
      | some (v, rest) =>
          match jskipWs rest with
          | ',' :: rest2 => jarrItems fuel rest2 (v :: acc)
          | ']' :: rest2 => some (JVal.arr (v :: acc).reverse, rest2)
          | _ => none

/-- Parse the comma-separated members of a non-empty JSON object.
Members are kept in parse order (the claims never exercise duplicate
keys, where Python's dict would keep the last occurrence). -/
def jobjItems : Nat → List Char → List (String × JVal) → Option (JVal × List Char)
  | 0, _, _ => none
  | fuel + 1, cs, acc =>
      match jskipWs cs with
      | [] => none
      | c :: rest =>
          if c == '"' then
            match jstring rest [] with
            | none => none
            | some (k, rest1) =>
                match jskipWs rest1 with
                | ':' :: rest2 =>
                    match jparse fuel rest2 with
                    | none => none
                    | some (v, rest3) =>
                        match jskipWs rest3 with
                        | ',' :: rest4 => jobjItems fuel rest4 ((k, v) :: acc)
                        | c5 :: rest5 =>
                            if c5 == rbrace then
                              some (JVal.obj ((k, v) :: acc).reverse, rest5)
                            else none
                        | [] => none
                | _ => none
          else none

end

/-- Model of Python `json.loads`: parse one JSON value and require only
whitespace to remain; anything else raises
`json.JSONDecodeError` (a `ValueError`). -/
def jsonLoads (s : String) : Except PyErr JVal :=
  match jparse (2 * s.length + 2) s.data with
  | some (v, rest) => if (jskipWs rest).isEmpty then .ok v else .error .valueError
  | none => .error .valueError

/-- Characters allowed inside an XML name in the modelled fragment. -/
def xmlNameChar (c : Char) : Bool :=
  c.isAlphanum || c == '_' || c == '-' || c == '.' || c == ':'

/-- Characters allowed to start an XML name in the modelled fragment. -/
def xmlNameStart (c : Char) : Bool :=
  c.isAlpha || c == '_' || c == ':'

/-- Modelled from the spec: attribute-list parser of the minimal XML
well-formedness checker used to settle the `decodeResponse` claim.  The
source never parses responses as XML, so this follows the spec's wire
format (double-quoted attribute values; declarations, comments and
entity validation are outside the modelled fragment). -/
def xparseAttrs : Nat → List Char → Option (List Char)
  | 0, _ => none
  | fuel + 1, cs =>
      let cs1 := jskipWs cs
      match cs1 with
      | [] => some []
      | c :: rest =>
          if xmlNameStart c then
            match (c :: rest).dropWhile xmlNameChar with
            | '=' :: '"' :: r2 =>
                match r2.dropWhile (fun ch => !(ch == '"') && !(ch == '<')) with
                | '"' :: r4 => xparseAttrs fuel r4
                | _ => none
            | _ => none
          else some cs1

mutual

/-- Modelled from the spec: parse one XML element (`<name attrs/>` or
`<name attrs>content</name>`), returning the remaining input. -/
def xparseElem : Nat → List Char → Option (List Char)
  | 0, _ => none
  | fuel + 1, cs =>
      match cs with
      | '<' :: rest =>
          let nm := rest.takeWhile xmlNameChar
          if nm.isEmpty then none
          else if ! xmlNameStart (nm.headD ' ') then none
          else
            match xparseAttrs fuel (rest.dropWhile xmlNameChar) with
            | none => none
            | some r2 =>
                match r2 with
                | '/' :: '>' :: r3 => some r3
                | '>' :: r3 =>
                    match xparseContent fuel r3 with
                    | none => none
                    | some r4 =>
                        match r4 with
                        | '<' :: '/' :: r5 =>
                            let nm2 := r5.takeWhile xmlNameChar
                            if nm2 = nm then
                              match jskipWs (r5.dropWhile xmlNameChar) with
                              | '>' :: r7 => some r7
                              | _ => none
                            else none
                        | _ => none
                | _ => none
      | _ => none

/-- Modelled from the spec: parse element content (character data and
child elements) up to, but not including, a closing tag. -/
def xparseContent : Nat → List Char → Option (List Char)
  | 0, _ => none
  | fuel + 1, cs =>
      match cs.dropWhile (fun c => !(c == '<')) with
      | '<' :: '/' :: r => some ('<' :: '/' :: r)
      | '<' :: r =>
          match xparseElem fuel ('<' :: r) with
          | none => none
          | some r2 => xparseContent fuel r2
      | _ => none

end

/-- Modelled from the spec: well-formedness of an XML document in the
minimal element fragment (optional surrounding whitespace around a
single root element), standing in for `xml.etree` parsing, which the
source imports but never applies to command responses. -/
def xmlWellFormed_spec (s : String) : Bool :=
  match xparseElem (2 * s.length + 2) (jskipWs s.data) with
  | some rest => (jskipWs rest).isEmpty
  | none => false

/-- The injected HTTP transport: a function from request URL and body to
the raw response body (the `Request`/`urlopen` pair in the source.
Authentication-header construction is an excluded collaborator and does
not influence any claim). -/
def Transport : Type := String → String → String

/-- The client state used by the command methods: device address and the
stored `MacId`.  Username, password, port, timeout and debug flag do not
influence the embedded command paths. -/
structure Client : Type where
  addr : String
  macid : Option String

/-- Python `"\x7b0!s\x7d".format(v)` on a string-or-`None` value. -/
def pyFormatOpt : Option String → String
  | some s => s
  | none => "None"

/-- Python `a or b` on string-or-`None` values: `None` and the empty
string are falsy. -/
def pyOr : Option String → Option String → Option String
  | some s, b => if s = "" then b else some s
  | none, b => b

/-- The request document built by `_send_http_comm`: the `LocalCommand`
wrapper with `Name`, `MacId` (argument or client default) and one
element per keyword argument, in the given order. -/
def requestBody (cmd : String) (macId clientMac : Option String)
    (kwargs : List (String × Option String)) : String :=
  "<LocalCommand>\n" ++ "<Name>" ++ cmd ++ "</Name>\n"
    ++ "<MacId>" ++ pyFormatOpt (pyOr macId clientMac) ++ "</MacId>\n"
    ++ kwargs.foldl
        (fun acc kv => acc ++ "<" ++ kv.1 ++ ">" ++ pyFormatOpt kv.2 ++ "</" ++ kv.1 ++ ">\n")
        ""
    ++ "</LocalCommand>\n"

/-- The command URL `http://<addr>/cgi-bin/cgi_manager`. -/
def urlOf (cl : Client) : String :=
  "http://" ++ cl.addr ++ "/cgi-bin/cgi_manager"

/-- What `_send_http_comm` returns: the raw response page for ordinary
commands, or the bare `dict()` for the intercepted `set_cloud` command. -/
inductive SendRet : Type where
  | page : String → SendRet
  | emptyDict : SendRet

/-- Embedding of `_send_http_comm`: build the request document; the
command named `set_cloud` is intercepted (its body is printed and an
empty dict is returned) before the HTTP request is built or sent; every
other command performs exactly one transport round trip.  The second
component counts transport invocations. -/
def sendHttpComm (cl : Client) (cmd : String) (macId : Option String)
    (kwargs : List (String × Option String)) (tr : Transport) : SendRet × Nat :=
  let commstr := requestBody cmd macId cl.macid kwargs
  if cmd = "set_cloud" then (.emptyDict, 0)
  else (.page (tr (urlOf cl) commstr), 1)

/-- The `json.loads(comm_responce)` step shared by every command method:
a raw page string is parsed as JSON; the `dict()` produced by the
`set_cloud` interception is not a string, so `json.loads` raises a
`TypeError` on it. -/
def jsonLoadsRet : SendRet → Except PyErr JVal
  | .page s => jsonLoads s
  | .emptyDict => .error .typeError

/-- Embedding of `Eagle.get_device_list`: one `_send_http_comm` round
trip followed by `json.loads`.  The second component counts transport
invocations. -/
def get_device_list (cl : Client) (tr : Transport) (macid : Option String) :
    Except PyErr JVal × Nat :=
  let r := sendHttpComm cl "get_device_list" macid [] tr
  (jsonLoadsRet r.1, r.2)

/-- Body of `Eagle.get_device_config` once its arguments are bound. -/
def get_device_config_body (cl : Client) (tr : Transport) (macidVal : Option String) :
    Except PyErr JVal × Nat :=
  let r := sendHttpComm cl "get_device_config" macidVal [] tr
  (jsonLoadsRet r.1, r.2)

/-- A Python argument value in the `get_remote_management` call: `None`,
a string, or the client object itself (which the buggy call passes
positionally). -/
inductive ArgVal : Type where
  | noneV : ArgVal
  | strv : String → ArgVal
  | clientObj : ArgVal

/-- Python argument binding for the signature
`get_device_config(self, macid=None)` after `self` is bound: at most one
positional argument, and every keyword must be named `macid` (an unknown
keyword or a doubly-bound `macid` raises `TypeError` before the body
runs). -/
def bindGetDeviceConfigArgs (pos : List ArgVal) (kw : List (String × ArgVal)) :
    Except PyErr ArgVal :=
  if 1 < pos.length then .error .typeError
  else if kw.any (fun p => !(p.1 == "macid")) then .error .typeError
  else if pos.length = 1 && kw.any (fun p => p.1 == "macid") then .error .typeError
  else
    match pos with
    | [a] => .ok a
    | _ =>
        match kw.find? (fun p => p.1 == "macid") with
        | some p => .ok p.2
        | none => .ok .noneV

/-- String rendering of an argument value, as `_send_http_comm` would
format it (the client-object case is unreachable in the modelled calls). -/
def argToOpt : ArgVal → Option String
  | .noneV => none
  | .strv s => some s
  | .clientObj => some "<RainEagle.EagleClass.Eagle object>"

/-- Embedding of `Eagle.get_remote_management`, which executes
`return self.get_device_config(self, MacId=macid)`: the client object is
passed positionally and the keyword is spelled `MacId`, which
`get_device_config` does not accept. -/
def get_remote_management (cl : Client) (tr : Transport) (macid : Option String) :
    Except PyErr JVal × Nat :=
  let kwArg : ArgVal :=
    match macid with
    | some s => .strv s
    | none => .noneV
  match bindGetDeviceConfigArgs [ArgVal.clientObj] [("MacId", kwArg)] with
  | .error e => (.error e, 0)
  | .ok m => get_device_config_body cl tr (argToOpt m)

/-- Result of `urllib.parse.urlparse` as consumed by `set_cloud`:
scheme, hostname, port, path, username and password (a port is `none`
both when absent; `urlparse` itself is an excluded stdlib collaborator,
injected as a function). -/
structure UrlParts : Type where
  scheme : String
  hostname : Option String
  port : Option Nat
  path : String
  username : Option String
  password : Option String

/-- Embedding of `Eagle.set_cloud`: reject a missing URL and a URL
longer than 200 characters, decompose the URL via the injected
`urlparse`, then issue the `set_cloud` command through
`_send_http_comm` (which intercepts it) and feed the result to
`json.loads`. -/
def set_cloud (cl : Client) (urlparse : String → UrlParts) (tr : Transport)
    (macid url : Option String) (authcode email : String) :
    Except PyErr JVal × Nat :=
  match url with
  | none => (.error .valueError, 0)
  | some u =>
      if 200 < u.length then (.error .valueError, 0)
      else
        let p := urlparse u
        let port : String :=
          match p.port with
          | some n => if n ≠ 0 then pyHexFormat (n : Int) 4 else "0x00"
          | none => "0x00"
        let protocol := if p.scheme ≠ "" then p.scheme else "http"
        let userid : String :=
          match p.username with
          | some s => if s ≠ "" then s else ""
          | none => ""
        let passwd : String :=
          match p.password with
          | some s => if s ≠ "" then s else ""
          | none => ""
        let r := sendHttpComm cl "set_cloud" macid
          [("Provider", some "manual"), ("Protocol", some protocol),
           ("HostName", p.hostname), ("Url", some p.path), ("Port", some port),
           ("AuthCode", some authcode), ("Email", some email),
           ("UserId", some userid), ("Password", some passwd)] tr
        (jsonLoadsRet r.1, r.2)

/-- Argument accepted by `Eagle.set_price`: a Python int, float (modelled
exactly over `Rat`), string, or `None`. -/
inductive PriceArg : Type where
  | intv : Int → PriceArg
  | floatv : Rat → PriceArg
  | strq : String → PriceArg
  | noneV : PriceArg

/-- Python `s.lstrip("$")`: drop every leading dollar sign. -/
def stripDollars (s : String) : String :=
  String.mk (s.data.dropWhile (fun c => c == '$'))

/-- Model of Python `float(s)` on finite decimal literals (optional
sign, digits with an optional decimal point, optional exponent).
Non-finite spellings, underscores and surrounding whitespace are outside
the modelled fragment, and the value is kept exact rather than rounded
to binary floating point. -/
def parseFloat (s : String) : Option Rat :=
  let sp : Int × List Char :=
    match s.data with
    | '-' :: r => (-1, r)
    | '+' :: r => (1, r)
    | r => (1, r)
  let ip := sp.2.takeWhile Char.isDigit
  let r1 := sp.2.dropWhile Char.isDigit
  match r1 with
  | '.' :: r2 =>
      let fp := r2.takeWhile Char.isDigit
      if ip.isEmpty && fp.isEmpty then none
      else
        match jexp (r2.dropWhile Char.isDigit) with
        | none => none
        | some (ev, r3) => if r3.isEmpty then some (sciRat sp.1 ip fp ev) else none
  | _ =>
      if ip.isEmpty then none
      else
        match jexp r1 with
        | none => none
        | some (ev, r3) => if r3.isEmpty then some (sciRat sp.1 ip [] ev) else none

/-- The trailing-digit search loop of `set_price`:
`while price * multiplier != floor(price * multiplier) and
trailing_digits < 7`, entered with fuel `7 - trailing_digits`.  The
source runs it on binary floats; the embedding idealizes the arithmetic
as exact rationals. -/
def priceLoop : Nat → Nat → Rat → Rat → Nat × Rat
  | 0, td, _, mult => (td, mult)
  | fuel + 1, td, price, mult =>
      if price * mult ≠ ((⌊price * mult⌋ : Int) : Rat) then
        priceLoop fuel (td + 1) price (mult * 10)
      else (td, mult)

/-- Embedding of `Eagle.set_price`: convert a `$`-prefixed string with
`float` (raising `ValueError` on a malformed number), reject
non-numeric arguments and non-positive prices with `ValueError`, then
encode the scaled price and trailing-digit count as hex and issue the
command. -/
def set_price (cl : Client) (tr : Transport) (macid : Option String)
    (price : PriceArg) : Except PyErr JVal × Nat :=
  let conv : Except PyErr PriceArg :=
    match price with
    | .strq s =>
        if s.startsWith "$" then
          match parseFloat (stripDollars s) with
          | some q => .ok (.floatv q)
          | none => .error .valueError
        else .ok price
    | _ => .ok price
  match conv with
  | .error e => (.error e, 0)
  | .ok p2 =>
      let qOpt : Option Rat :=
        match p2 with
        | .intv i => some ((i : Rat))
        | .floatv q => some q
        | _ => none
      match qOpt with
      | none => (.error .valueError, 0)
      | some q =>
          if q ≤ 0 then (.error .valueError, 0)
          else
            let tm := priceLoop 7 0 q 1
            let price_adj := hexSimple (⌊q * tm.2⌋).toNat
            let tdigits := hexSimple tm.1
            let r := sendHttpComm cl "set_price" macid
              [("Price", some price_adj), ("TrailingDigits", some tdigits)] tr
            (jsonLoadsRet r.1, r.2)

/-- A concrete client for the closed evaluations. -/
def mclient : Client := ⟨"10.0.0.5", some "0xd8d5b90000001234"⟩

/-- C1 (counterexample): the raw string `<a></a>` is well-formed XML, so
under the claim `get_device_list` would have to decode it successfully
via the TreeNormalizer; the code instead feeds it to `json.loads`, which
raises a `ValueError`. -/
theorem decode_response_xml_counterexample :
    (get_device_list mclient (fun _ _ => "<a></a>") none).1 = .error .valueError
      ∧ xmlWellFormed_spec "<a></a>" = true :=
  ⟨rfl, rfl⟩

/-- C1 (amended): a command method decodes the raw transport response by
parsing it as JSON with `json.loads` (shown for the cited representative
`get_device_list`), decoding raises a `ValueError` exactly when the raw
string is not valid JSON, and exactly one transport round trip is made;
the XML tree normalizer `_et2d` is not involved. -/
theorem get_device_list_decodes_json (cl : Client) (tr : Transport)
    (macid : Option String) :
    get_device_list cl tr macid
      = (jsonLoads (tr (urlOf cl) (requestBody "get_device_list" macid cl.macid [])), 1) := by
  rfl

/-- C2: `set_cloud` never invokes the network transport, whatever the
URL argument (including the error paths), and the interception happens
inside the send path: `_send_http_comm` performs zero transport
invocations for the command named `set_cloud`, whatever keyword
arguments it is given. -/
theorem set_cloud_never_hits_transport (cl : Client) (up : String → UrlParts)
    (tr : Transport) (macid url : Option String) (authcode email : String) :
    (set_cloud cl up tr macid url authcode email).2 = 0
      ∧ ∀ (kwargs : List (String × Option String)),
          (sendHttpComm cl "set_cloud" macid kwargs tr).2 = 0 := by
  constructor
  · cases url with
    | none => rfl
    | some u =>
        by_cases h : 200 < u.length
        · simp [set_cloud, h]
        · simp [set_cloud, h, sendHttpComm]
  · intro kwargs
    rfl

/-- The `urlparse` collaborator used by the closed `set_cloud`
evaluation. -/
def murlparse : String → UrlParts :=
  fun _ => ⟨"https", some "example.com", none, "/upload", none, none⟩

/-- C3: evaluating `set_cloud` at a valid 26-character URL.  The claim
(and the spec's stated intent) is that an empty mapping is returned; the
code instead raises a `TypeError`, because `_send_http_comm` returns the
bare `dict()` for the intercepted command and `set_cloud` then calls
`json.loads` on that dict.  The transport is still never invoked. -/
theorem set_cloud_typeError_eval :
    set_cloud mclient murlparse (fun _ _ => "") none
        (some "https://example.com/upload") "" ""
      = (.error .typeError, 0) := rfl

/-- Invalid `set_price` argument in the sense of the claim: a
non-positive number (possibly written as a `$`-string), or a value that
is not numeric after stripping an optional leading `$`. -/
def priceInvalid : PriceArg → Prop
  | .intv i => i ≤ 0
  | .floatv q => q ≤ 0
  | .strq s =>
      if s.startsWith "$" then
        match parseFloat (stripDollars s) with
        | some q => q ≤ 0
        | none => True
      else True
  | .noneV => True

/-- C8: `set_price` with a non-positive or non-numeric price raises a
`ValueError` (the spec's `ConfigError`) before any transport call is
made: the transport invocation count is zero. -/
theorem set_price_invalid_rejected (cl : Client) (tr : Transport)
    (macid : Option String) (p : PriceArg) (h : priceInvalid p) :
    set_price cl tr macid p = (.error .valueError, 0) := by
  cases p with
  | intv i =>
      have hq : ((i : Rat)) ≤ 0 := by exact_mod_cast h
      simp [set_price, hq]
  | floatv q =>
      have hq : q ≤ 0 := h
      simp [set_price, hq]
  | strq s =>
      by_cases hs : s.startsWith "$"
      · simp only [priceInvalid] at h
        rw [if_pos hs] at h
        match hp : parseFloat (stripDollars s) with
        | none => simp [set_price, hs, hp]
        | some q =>
            rw [hp] at h
            change q ≤ 0 at h
            simp [set_price, hs, hp, h]
      · simp [set_price, hs]
  | noneV => rfl

/-- Witness for C8 at `price = -1`. -/
theorem set_price_invalid_rejected_witness :
    priceInvalid (.intv (-1))
      ∧ set_price mclient (fun _ _ => "") none (.intv (-1))
          = (.error .valueError, 0) :=
  ⟨by show (-1 : Int) ≤ 0; decide,
   set_price_invalid_rejected mclient (fun _ _ => "") none (.intv (-1))
     (by show (-1 : Int) ≤ 0; decide)⟩

/-- C10: `get_remote_management` always raises a `TypeError` without a
single transport invocation, because it calls `get_device_config` with
the client itself as the positional `macid` argument and an unexpected
`MacId` keyword, which Python argument binding rejects before the body
runs. -/
theorem get_remote_management_typeError (cl : Client) (tr : Transport)
    (macid : Option String) :
    get_remote_management cl tr macid = (.error .typeError, 0) := by
  cases macid <;> rfl

end RainEagle
